import Mathlib

/-!
Shallow embedding of the v3sat save-file analysis scripts.

The repository reads a Victoria 3 save exported as JSON and derives reports.
We embed the parts the specification talks about:

* the building-ownership attribution pipeline of `true_gdp_ownership.py`
  (`analyze_foreign_ownership_true_gdp`), whose per-record value computation is
  textually identical to the ones in `effective_gdp_report.py`
  (`calculate_foreign_ownership`) and `session_comparison.py`
  (`calculate_effective_gdp`);
* the alternative attribution pipeline of `foreign_ownership_report.py`
  (`calculate_foreign_ownership`);
* the subject-relationship resolver of `gdp_treemap_plotly.py`
  (`get_subject_relationships` / `get_all_subjects`), identical in
  `population_treemap_plotly.py` and `goods_treemap_powerbloc.py`;
* the humans.txt loaders of `gdp_report.py` (`load_humans_list`) and of
  `true_gdp_ownership.py` / `foreign_ownership_report.py` (set comprehensions).

JSON dictionaries become association lists, JSON numbers become `Int` (ids,
level counts) or `ℚ` (monetary floats), and a field that may be absent becomes
an `Option`.  Python's `d.get(k, default)` becomes `Option.getD`.  Python's
truthiness test `if not x` on an id is `x = none` or `x = some 0`.
-/

namespace V3Sat

/-- One entry of `ownership['identity']`: either a direct country owner
(`'country' in identity`) or a building-based owner (`'building' in identity`). -/
structure Identity where
  country : Option Nat
  building : Option Nat
deriving DecidableEq, Repr

/-- One record of `building_ownership_manager.database`.  `levels` defaults to
0 when absent (`ownership.get('levels', 0)`). -/
structure OwnershipRec where
  identity : Option Identity
  building : Option Nat
  levels : Option Int
deriving DecidableEq, Repr

/-- One record of `building_manager.database`.  `levels` defaults to 1 when
absent (`building.get('levels', 1)`); the monetary fields default to 0. -/
structure Building where
  state : Option Nat
  levels : Option Int
  cash_reserves : Option ℚ
  profit_after_reserves : Option ℚ
deriving DecidableEq, Repr

/-- One record of `states.database`; only its `country` field is read here. -/
structure StateRec where
  country : Option Nat
deriving DecidableEq, Repr

/-- One record of `country_manager.database`; only `definition` is read by the
code we embed, and none of the embedded computations below consult it. -/
structure Country where
  definition : Option String
deriving DecidableEq, Repr

/-- One record of `pacts.database`: `action`, `targets.first`,
`targets.second`. -/
structure Pact where
  action : Option String
  first : Option Nat
  second : Option Nat
deriving DecidableEq, Repr

/-- The top-level save document.  Each field models one expected top-level
section (`country_manager.database`, `building_manager.database`,
`states.database`, `building_ownership_manager.database`, `pacts.database`);
`none` models a document from which the whole section is absent, in which case
the code's `save_data.get(section, {}).get('database', {})` yields `{}`. -/
structure SaveData where
  countries : Option (List (Nat × Country))
  buildings : Option (List (Nat × Building))
  states : Option (List (Nat × StateRec))
  ownerships : Option (List (Nat × OwnershipRec))
  pacts : Option (List (Nat × Pact))

/-- `ownership.get('identity', {})`. -/
def identD (ow : OwnershipRec) : Identity :=
  ow.identity.getD ⟨none, none⟩

/-- `ownership.get('levels', 0)`. -/
def recLevels (ow : OwnershipRec) : Int :=
  ow.levels.getD 0

/-- The share of the building the record owns:
`levels / building_levels if building_levels > 0 else 0`, with
`building_levels = building.get('levels', 1)`.  This guard is the code's
protection against dividing by a zero level count. -/
def levelShare (levels : Int) (b : Building) : ℚ :=
  let bl := b.levels.getD 1
  if 0 < bl then (levels : ℚ) / (bl : ℚ) else 0

/-- The estimated value of an ownership stake, embedding the identical lines of
`true_gdp_ownership.py` (158-167), `effective_gdp_report.py` (144-152) and
`session_comparison.py` (183-190): cash reserves first, then annualized profit
with a 10x multiplier, else a flat 50000 per owned level. -/
def buildingValue (levels : Int) (b : Building) : ℚ :=
  let share := levelShare levels b
  let cash := b.cash_reserves.getD 0
  let profit := b.profit_after_reserves.getD 0
  if 0 < cash then cash * share
  else if 0 < profit then profit * 52 * share * 10
  else (levels : ℚ) * 50000

/-- `buildings.get(str(ownership.get('building')))`: a missing reference or a
dangling id resolves to nothing. -/
def ownedBuilding (bs : List (Nat × Building)) (ow : OwnershipRec) :
    Option Building :=
  ow.building.bind (fun bid => List.lookup bid bs)

/-- `states.get(str(building.get('state')))`. -/
def locState (sts : List (Nat × StateRec)) (b : Building) : Option StateRec :=
  b.state.bind (fun sid => List.lookup sid sts)

/-- Owner resolution of `analyze_foreign_ownership_true_gdp` (lines 134-147):
a direct `country` key wins; otherwise a `building` key is chased through the
building and state tables to the owning state's country.  The result may be
`some 0`, which the caller later rejects by truthiness. -/
def resolveOwner (bs : List (Nat × Building)) (sts : List (Nat × StateRec))
    (iden : Identity) : Option Nat :=
  match iden.country with
  | some c => some c
  | none =>
    match iden.building with
    | none => none
    | some ob =>
      match List.lookup ob bs with
      | none => none
      | some b =>
        match locState sts b with
        | none => none
        | some st => st.country

/-- The host country of the owned building: state lookup chased from the
building record, as in `analyze_foreign_ownership_true_gdp` (lines 117-131). -/
def hostCountry (bs : List (Nat × Building)) (sts : List (Nat × StateRec))
    (ow : OwnershipRec) : Option Nat :=
  (ownedBuilding bs ow).bind (fun b => (locState sts b).bind (fun st => st.country))

/-- The edge produced from one ownership record by
`analyze_foreign_ownership_true_gdp` (lines 106-171): `none` when the record is
skipped by any guard, `some (owner, host, value)` when the record contributes
`value` to `foreign_investments[owner][host]`. -/
def trueGdpEdge (bs : List (Nat × Building)) (sts : List (Nat × StateRec))
    (ow : OwnershipRec) : Option (Nat × Nat × ℚ) :=
  if 0 < recLevels ow then
    (ownedBuilding bs ow).bind (fun b =>
      (locState sts b).bind (fun st =>
        st.country.bind (fun tc =>
          if tc = 0 then none
          else
            (resolveOwner bs sts (identD ow)).bind (fun oc =>
              if oc ≠ 0 ∧ oc ≠ tc then
                some (oc, tc, buildingValue (recLevels ow) b)
              else none))))
  else none

/-- The stake value used by `foreign_ownership_report.py` (lines 105-132):
profitable buildings are valued by annual dividends at a 12% yield, otherwise
cash reserves plus a flat 100000 per owned level. -/
def forValue (levels : Int) (b : Building) : ℚ :=
  let share := levelShare levels b
  let profit := b.profit_after_reserves.getD 0
  let cash := b.cash_reserves.getD 0
  if 0 < profit then profit * share * 52 / (12 / 100 : ℚ)
  else (if 0 < cash then cash * share else 0) + (levels : ℚ) * 100000

/-- The foreign edge produced from one ownership record by
`foreign_ownership_report.calculate_foreign_ownership` (lines 75-143): only an
identity with a truthy `country` key counts as owner, ids are tested for
truthiness, and an owner equal to the state's country goes to the domestic
branch (no foreign edge). -/
def forEdge (bs : List (Nat × Building)) (sts : List (Nat × StateRec))
    (ow : OwnershipRec) : Option (Nat × Nat × ℚ) :=
  ow.building.bind (fun bid =>
    ((identD ow).country).bind (fun oc =>
      if bid ≠ 0 ∧ oc ≠ 0 ∧ 0 < recLevels ow then
        (List.lookup bid bs).bind (fun b =>
          b.state.bind (fun sid =>
            if sid = 0 then none
            else
              (List.lookup sid sts).bind (fun st =>
                st.country.bind (fun hc =>
                  if hc = 0 then none
                  else if oc = hc then none
                  else some (oc, hc, forValue (recLevels ow) b)))))
      else none))

/-- The edge produced from one ownership record by
`effective_gdp_report.calculate_foreign_ownership` (lines 88-155) and the
identical loop of `session_comparison.calculate_effective_gdp` (lines 136-192):
like `trueGdpEdge` but the matrix also keeps domestic entries, so the
`owner ≠ host` test is absent. -/
def effEdge (bs : List (Nat × Building)) (sts : List (Nat × StateRec))
    (ow : OwnershipRec) : Option (Nat × Nat × ℚ) :=
  if 0 < recLevels ow then
    (ownedBuilding bs ow).bind (fun b =>
      (locState sts b).bind (fun st =>
        st.country.bind (fun hc =>
          if hc = 0 then none
          else
            (resolveOwner bs sts (identD ow)).bind (fun oc =>
              if oc = 0 then none
              else some (oc, hc, buildingValue (recLevels ow) b)))))
  else none

/-- `building_manager` section of a save, absent sections read as empty. -/
def buildingsD (s : SaveData) : List (Nat × Building) :=
  s.buildings.getD []

/-- `states` section of a save, absent sections read as empty. -/
def statesD (s : SaveData) : List (Nat × StateRec) :=
  s.states.getD []

/-- The ownership records iterated by the attribution loop. -/
def trueGdpRecords (s : SaveData) : List OwnershipRec :=
  (s.ownerships.getD []).map Prod.snd

/-- All foreign edges produced by `analyze_foreign_ownership_true_gdp` on a
save document; `foreign_investments` is the sum of matching edges. -/
def trueGdpEdges (s : SaveData) : List (Nat × Nat × ℚ) :=
  (trueGdpRecords s).filterMap (trueGdpEdge (buildingsD s) (statesD s))

/-- `foreign_investments[o][t]`: the defaultdict accumulation, as the sum of
the values of the edges with owner `o` and host `t`. -/
def investmentTotal (s : SaveData) (o t : Nat) : ℚ :=
  ((trueGdpEdges s).map (fun e => if e.1 = o ∧ e.2.1 = t then e.2.2 else 0)).sum

/-! ## Subject relationships

Embedding of `get_subject_relationships` / `get_all_subjects` from
`gdp_treemap_plotly.py` (lines 87-135), textually identical in
`population_treemap_plotly.py` and (modulo variable names)
`goods_treemap_powerbloc.py`.  The Python visited set becomes a `List Nat`
used only through membership and insertion; the recursion depth of the Python
function is bounded, which we expose with an explicit fuel argument and prove
that any fuel beyond the number of graph nodes yields the same result. -/

/-- The recognized subject pact kinds (`subject_types`). -/
def subjectTypes : List String :=
  ["dominion", "puppet", "protectorate", "colony", "personal_union",
   "chartered_company"]

/-- Python truthiness of an id read with `.get`: false for an absent value and
for the id 0. -/
def truthyId : Option Nat → Bool
  | none => false
  | some n => n != 0

/-- Append `s` to the adjacency entry of `o`, creating the entry if absent:
`direct_subjects.setdefault(o, []).append(s)` in effect. -/
def addSubject : List (Nat × List Nat) → Nat → Nat → List (Nat × List Nat)
  | [], o, s => [(o, [s])]
  | (k, l) :: rest, o, s =>
    if k = o then (k, l ++ [s]) :: rest else (k, l) :: addSubject rest o s

/-- The body of the first pass over the pacts: a pact adds an adjacency entry
only when its action is a recognized subject kind and both targets are truthy. -/
def pactStep (ds : List (Nat × List Nat)) (p : Pact) : List (Nat × List Nat) :=
  if (p.action.getD "") ∈ subjectTypes then
    if truthyId p.first && truthyId p.second then
      addSubject ds (p.first.getD 0) (p.second.getD 0)
    else ds
  else ds

/-- First pass of `get_subject_relationships`: the direct overlord → subjects
adjacency map. -/
def directSubjects (pacts : List Pact) : List (Nat × List Nat) :=
  pacts.foldl pactStep []

/-- The direct subjects of `c`: the adjacency entry, empty when absent
(`if country_id in direct_subjects`). -/
def subjectsOf (ds : List (Nat × List Nat)) (c : Nat) : List Nat :=
  (List.lookup c ds).getD []

/-- The loop `for subject in direct_subjects[country_id]` of
`get_all_subjects`: append each direct subject, then extend with its recursive
result, threading the shared visited set. -/
def goList (g : Nat → List Nat → List Nat × List Nat) :
    List Nat → List Nat → List Nat × List Nat
  | [], v => ([], v)
  | s :: rest, v =>
    let p := g s v
    let q := goList g rest p.2
    (s :: (p.1 ++ q.1), q.2)

/-- `get_all_subjects(country_id, visited)` with an explicit fuel bounding the
recursion depth: an already-visited country truncates the expansion, otherwise
the country is marked visited and its direct subjects are traversed. -/
def visit (ds : List (Nat × List Nat)) :
    Nat → Nat → List Nat → List Nat × List Nat
  | 0, _, v => ([], v)
  | f + 1, c, v =>
    if c ∈ v then ([], v)
    else goList (fun s w => visit ds f s w) (subjectsOf ds c) (c :: v)

/-- All countries mentioned in the adjacency map, as overlord or as subject. -/
def allNodes : List (Nat × List Nat) → Finset Nat
  | [] => ∅
  | p :: rest => insert p.1 (p.2.foldr insert (allNodes rest))

/-- A recursion-depth budget exceeding the number of distinct countries in the
adjacency map: enough fuel for `visit` to agree with the unbounded Python
recursion (proved below), while keeping the definition a pure list
computation. -/
def subjectFuel (ds : List (Nat × List Nat)) : Nat :=
  ds.length + (ds.map (fun p => p.2.length)).sum + 1

/-- `get_all_subjects(overlord)` with a fresh visited set. -/
def getAllSubjects (ds : List (Nat × List Nat)) (c : Nat) : List Nat :=
  (visit ds (subjectFuel ds) c []).1

/-- Second pass of `get_subject_relationships`: the transitive subject list of
every overlord that has a direct subject. -/
def subjectRelationships (pacts : List Pact) : List (Nat × List Nat) :=
  let ds := directSubjects pacts
  ds.map (fun p => (p.1, getAllSubjects ds p.1))

/-- `get_subject_relationships(save_data)`. -/
def subjectRelationshipsOf (s : SaveData) : List (Nat × List Nat) :=
  subjectRelationships ((s.pacts.getD []).map Prod.snd)

/-- Reachability by at least one step along the direct-subject adjacency:
`Reach ds x y` holds when `y` is a direct or indirect subject of `x`. -/
inductive Reach (ds : List (Nat × List Nat)) : Nat → Nat → Prop
  | base {x y : Nat} : y ∈ subjectsOf ds x → Reach ds x y
  | tail {x y z : Nat} : Reach ds x y → z ∈ subjectsOf ds y → Reach ds x z

/-! ## Inversion lemmas for the per-record pipelines -/

/-- What a produced `true_gdp_ownership` edge tells us: the record resolved to
a building, a host and an owner, both ids nonzero and distinct, and the value
is `buildingValue`. -/
lemma trueGdpEdge_inv {bs : List (Nat × Building)} {sts : List (Nat × StateRec)}
    {ow : OwnershipRec} {o t : Nat} {v : ℚ}
    (he : trueGdpEdge bs sts ow = some (o, t, v)) :
    0 < recLevels ow ∧ ∃ b, ownedBuilding bs ow = some b ∧
      hostCountry bs sts ow = some t ∧
      resolveOwner bs sts (identD ow) = some o ∧
      o ≠ 0 ∧ t ≠ 0 ∧ o ≠ t ∧ v = buildingValue (recLevels ow) b := by
  simp only [trueGdpEdge] at he
  by_cases h0 : 0 < recLevels ow
  · rw [if_pos h0] at he
    simp only [Option.bind_eq_some] at he
    obtain ⟨b, hb, st, hs, tc, hc, he⟩ := he
    by_cases ht0 : tc = 0
    · rw [if_pos ht0] at he; simp at he
    rw [if_neg ht0] at he
    simp only [Option.bind_eq_some] at he
    obtain ⟨oc, ho, he⟩ := he
    by_cases hoc : oc ≠ 0 ∧ oc ≠ tc
    · rw [if_pos hoc] at he
      simp only [Option.some.injEq, Prod.mk.injEq] at he
      obtain ⟨rfl, rfl, rfl⟩ := he
      exact ⟨h0, b, hb, by simp [hostCountry, hb, hs, hc], ho,
        hoc.1, ht0, hoc.2, rfl⟩
    · rw [if_neg hoc] at he; simp at he
  · rw [if_neg h0] at he; simp at he

/-- Same inversion for the `effective_gdp_report` / `session_comparison`
matrix entries, which keep domestic edges, so no `o ≠ t` here. -/
lemma effEdge_inv {bs : List (Nat × Building)} {sts : List (Nat × StateRec)}
    {ow : OwnershipRec} {o t : Nat} {v : ℚ}
    (he : effEdge bs sts ow = some (o, t, v)) :
    0 < recLevels ow ∧ ∃ b, ownedBuilding bs ow = some b ∧
      hostCountry bs sts ow = some t ∧
      resolveOwner bs sts (identD ow) = some o ∧
      o ≠ 0 ∧ t ≠ 0 ∧ v = buildingValue (recLevels ow) b := by
  simp only [effEdge] at he
  by_cases h0 : 0 < recLevels ow
  · rw [if_pos h0] at he
    simp only [Option.bind_eq_some] at he
    obtain ⟨b, hb, st, hs, tc, hc, he⟩ := he
    by_cases ht0 : tc = 0
    · rw [if_pos ht0] at he; simp at he
    rw [if_neg ht0] at he
    simp only [Option.bind_eq_some] at he
    obtain ⟨oc, ho, he⟩ := he
    by_cases ho0 : oc = 0
    · rw [if_pos ho0] at he; simp at he
    rw [if_neg ho0] at he
    simp only [Option.some.injEq, Prod.mk.injEq] at he
    obtain ⟨rfl, rfl, rfl⟩ := he
    exact ⟨h0, b, hb, by simp [hostCountry, hb, hs, hc], ho, ho0, ht0, rfl⟩
  · rw [if_neg h0] at he; simp at he

/-- A `foreign_ownership_report` edge is strictly foreign: the domestic branch
produces none. -/
lemma forEdge_inv {bs : List (Nat × Building)} {sts : List (Nat × StateRec)}
    {ow : OwnershipRec} {o t : Nat} {v : ℚ}
    (he : forEdge bs sts ow = some (o, t, v)) : o ≠ 0 ∧ t ≠ 0 ∧ o ≠ t := by
  simp only [forEdge] at he
  simp only [Option.bind_eq_some] at he
  obtain ⟨bid, hbid, oc, hoc, he⟩ := he
  by_cases hg : bid ≠ 0 ∧ oc ≠ 0 ∧ 0 < recLevels ow
  · rw [if_pos hg] at he
    simp only [Option.bind_eq_some] at he
    obtain ⟨b, hb, sid, hsid, he⟩ := he
    by_cases hs0 : sid = 0
    · rw [if_pos hs0] at he; simp at he
    rw [if_neg hs0] at he
    simp only [Option.bind_eq_some] at he
    obtain ⟨st, hst, hc2, hc, he⟩ := he
    by_cases hh0 : hc2 = 0
    · rw [if_pos hh0] at he; simp at he
    rw [if_neg hh0] at he
    by_cases heq : oc = hc2
    · rw [if_pos heq] at he; simp at he
    rw [if_neg heq] at he
    simp only [Option.some.injEq, Prod.mk.injEq] at he
    obtain ⟨rfl, rfl, rfl⟩ := he
    exact ⟨hg.2.1, hh0, heq⟩
  · rw [if_neg hg] at he; simp at he

/-- `levelShare` under a positive total level count. -/
lemma buildingValue_eq (levels : Int) (b : Building)
    (hl : 0 < b.levels.getD 1) :
    buildingValue levels b =
      (if 0 < b.cash_reserves.getD 0 then
        b.cash_reserves.getD 0 * ((levels : ℚ) / ((b.levels.getD 1 : Int) : ℚ))
      else if 0 < b.profit_after_reserves.getD 0 then
        b.profit_after_reserves.getD 0 * 52 *
          ((levels : ℚ) / ((b.levels.getD 1 : Int) : ℚ)) * 10
      else (levels : ℚ) * 50000) := by
  simp only [buildingValue, levelShare, if_pos hl]

/-! ## Basic properties of the subject traversal -/

/-- `goList` only grows the visited set when `g` does. -/
lemma goList_snd_mono (g : Nat → List Nat → List Nat × List Nat)
    (hg : ∀ s w, w ⊆ (g s w).2) :
    ∀ (L v : List Nat), v ⊆ (goList g L v).2 := by
  intro L
  induction L with
  | nil => intro v; simp [goList]
  | cons s rest ih =>
    intro v
    simp only [goList]
    exact (hg s v).trans (ih (g s v).2)

/-- `visit` only grows the visited set. -/
lemma visit_snd_mono (ds : List (Nat × List Nat)) :
    ∀ (f c : Nat) (v : List Nat), v ⊆ (visit ds f c v).2 := by
  intro f
  induction f with
  | zero => intro c v; simp [visit]
  | succ f ih =>
    intro c v
    simp only [visit]
    by_cases h : c ∈ v
    · rw [if_pos h]
      exact fun a ha => ha
    · rw [if_neg h]
      exact (List.subset_cons_self c v).trans
        (goList_snd_mono _ (fun s w => ih s w) _ _)

/-- A fresh country gets marked visited whenever there is fuel. -/
lemma visit_mem_snd (ds : List (Nat × List Nat)) (f c : Nat) (v : List Nat)
    (hf : 0 < f) : c ∈ (visit ds f c v).2 := by
  cases f with
  | zero => exact absurd hf (by simp)
  | succ f =>
    simp only [visit]
    by_cases h : c ∈ v
    · rw [if_pos h]; exact h
    · rw [if_neg h]
      exact goList_snd_mono _ (fun s w => visit_snd_mono ds f s w) _ _
        (List.mem_cons_self c v)

/-- Elements already collected stay collected under `foldr insert`. -/
lemma mem_foldr_insert_of_mem_acc {l : List Nat} {acc : Finset Nat} {a : Nat}
    (h : a ∈ acc) : a ∈ l.foldr insert acc := by
  induction l with
  | nil => exact h
  | cons x xs ih => exact Finset.mem_insert_of_mem ih

/-- Every listed element lands in `foldr insert`. -/
lemma mem_foldr_insert_of_mem {l : List Nat} {acc : Finset Nat} {a : Nat}
    (h : a ∈ l) : a ∈ l.foldr insert acc := by
  induction l with
  | nil => simp at h
  | cons x xs ih =>
    rcases List.mem_cons.mp h with rfl | h2
    · exact Finset.mem_insert_self a _
    · exact Finset.mem_insert_of_mem (ih h2)

/-- A successful lookup exhibits a pair of the association list. -/
lemma lookup_mem {ds : List (Nat × List Nat)} {c : Nat} {l : List Nat}
    (h : List.lookup c ds = some l) : (c, l) ∈ ds := by
  induction ds with
  | nil => simp [List.lookup] at h
  | cons p rest ih =>
    obtain ⟨k, sl⟩ := p
    by_cases hck : c = k
    · subst hck
      simp [List.lookup] at h
      subst h
      exact List.mem_cons_self _ _
    · have hb : (c == k) = false := by simp [hck]
      simp only [List.lookup, hb] at h
      exact List.mem_cons_of_mem _ (ih h)

/-- Keys and subjects of the adjacency map are nodes. -/
lemma mem_allNodes_of_pair {ds : List (Nat × List Nat)} {k : Nat}
    {l : List Nat} (h : (k, l) ∈ ds) :
    k ∈ allNodes ds ∧ ∀ s ∈ l, s ∈ allNodes ds := by
  induction ds with
  | nil => simp at h
  | cons p rest ih =>
    rcases List.mem_cons.mp h with heq | h2
    · rw [← heq]
      simp only [allNodes]
      exact ⟨Finset.mem_insert_self _ _,
        fun s hs => Finset.mem_insert_of_mem (mem_foldr_insert_of_mem hs)⟩
    · obtain ⟨h1, h2s⟩ := ih h2
      simp only [allNodes]
      exact ⟨Finset.mem_insert_of_mem (mem_foldr_insert_of_mem_acc h1),
        fun s hs => Finset.mem_insert_of_mem
          (mem_foldr_insert_of_mem_acc (h2s s hs))⟩

/-- A country outside `allNodes` has no adjacency entry. -/
lemma subjectsOf_eq_nil_of_not_mem {ds : List (Nat × List Nat)} {c : Nat}
    (h : c ∉ allNodes ds) : subjectsOf ds c = [] := by
  unfold subjectsOf
  rcases hl : List.lookup c ds with _ | l
  · rfl
  · exact absurd (mem_allNodes_of_pair (lookup_mem hl)).1 h

/-- A country with an adjacency entry is a node. -/
lemma mem_allNodes_of_subjectsOf {ds : List (Nat × List Nat)} {c s : Nat}
    (h : s ∈ subjectsOf ds c) : c ∈ allNodes ds := by
  by_contra hc
  rw [subjectsOf_eq_nil_of_not_mem hc] at h
  simp at h

/-- The nodes the traversal has not yet visited. -/
def unvisited (ds : List (Nat × List Nat)) (v : List Nat) : Nat :=
  ((allNodes ds).filter (fun a => a ∉ v)).card

/-- Growing the visited set cannot increase the unvisited count. -/
lemma unvisited_le_of_subset {ds : List (Nat × List Nat)} {v w : List Nat}
    (h : v ⊆ w) : unvisited ds w ≤ unvisited ds v := by
  apply Finset.card_le_card
  intro a ha
  simp only [Finset.mem_filter] at ha ⊢
  exact ⟨ha.1, fun hm => ha.2 (h hm)⟩

/-- Visiting a fresh node strictly shrinks the unvisited count. -/
lemma unvisited_lt {ds : List (Nat × List Nat)} {c : Nat} {v : List Nat}
    (hc : c ∈ allNodes ds) (hv : c ∉ v) :
    unvisited ds (c :: v) < unvisited ds v := by
  apply Finset.card_lt_card
  rw [Finset.ssubset_iff_of_subset]
  · refine ⟨c, Finset.mem_filter.mpr ⟨hc, hv⟩, ?_⟩
    intro hcontra
    exact (Finset.mem_filter.mp hcontra).2 (List.mem_cons_self c v)
  · intro a ha
    have h1 := Finset.mem_filter.mp ha
    exact Finset.mem_filter.mpr
      ⟨h1.1, fun hm => h1.2 (List.mem_cons_of_mem c hm)⟩

/-- Each `foldr insert` step adds at most the list's length many elements. -/
lemma card_foldr_insert_le (l : List Nat) (acc : Finset Nat) :
    (l.foldr insert acc).card ≤ l.length + acc.card := by
  induction l with
  | nil => simp
  | cons x xs ih =>
    have h1 := Finset.card_insert_le x (xs.foldr insert acc)
    simp only [List.foldr, List.length_cons]
    omega

/-- The node count is below the recursion budget. -/
lemma card_allNodes_lt_subjectFuel (ds : List (Nat × List Nat)) :
    (allNodes ds).card < subjectFuel ds := by
  induction ds with
  | nil => simp [allNodes, subjectFuel]
  | cons p rest ih =>
    have h1 := Finset.card_insert_le p.1 (p.2.foldr insert (allNodes rest))
    have h2 := card_foldr_insert_le p.2 (allNodes rest)
    simp only [allNodes, subjectFuel, List.length_cons, List.map, List.sum_cons]
    simp only [subjectFuel] at ih
    omega

/-- Whatever has been visited, the budget always exceeds what remains. -/
lemma unvisited_lt_subjectFuel (ds : List (Nat × List Nat)) (v : List Nat) :
    unvisited ds v < subjectFuel ds :=
  lt_of_le_of_lt (Finset.card_filter_le _ _) (card_allNodes_lt_subjectFuel ds)

/-! ## Fuel irrelevance: the traversal terminates at depth `subjectFuel` -/

/-- Two traversal loops agree when their bodies agree above a fixed visited
set. -/
lemma goList_congr (g1 g2 : Nat → List Nat → List Nat × List Nat)
    (v0 : List Nat) (hm : ∀ s w, w ⊆ (g1 s w).2)
    (hg : ∀ s w, v0 ⊆ w → g1 s w = g2 s w) :
    ∀ (L w : List Nat), v0 ⊆ w → goList g1 L w = goList g2 L w := by
  intro L
  induction L with
  | nil => intro w _; rfl
  | cons s rest ih =>
    intro w hw
    have h1 := hg s w hw
    have h2 : w ⊆ (g2 s w).2 := h1 ▸ hm s w
    simp only [goList, h1, ih (g2 s w).2 (hw.trans h2)]

/-- Any two fuels beyond the unvisited count give the same traversal: the
recursion is insensitive to extra depth budget, i.e. it terminates. -/
lemma visit_fuel_irrel (ds : List (Nat × List Nat)) :
    ∀ (f1 f2 c : Nat) (v : List Nat),
      unvisited ds v < f1 → unvisited ds v < f2 →
      visit ds f1 c v = visit ds f2 c v := by
  intro f1
  induction f1 with
  | zero => intro f2 c v h1 _; exact absurd h1 (by simp)
  | succ f1 ih =>
    intro f2 c v h1 h2
    cases f2 with
    | zero => exact absurd h2 (by simp)
    | succ f2 =>
      simp only [visit]
      by_cases hc : c ∈ v
      · rw [if_pos hc, if_pos hc]
      · rw [if_neg hc, if_neg hc]
        by_cases hmem : c ∈ allNodes ds
        · have hd := unvisited_lt hmem hc
          apply goList_congr (fun s w => visit ds f1 s w)
            (fun s w => visit ds f2 s w) (c :: v)
            (fun s w => visit_snd_mono ds f1 s w) ?_ _ _
            (List.Subset.refl _)
          intro s w hw
          have hwle : unvisited ds w ≤ unvisited ds (c :: v) :=
            unvisited_le_of_subset hw
          exact ih f2 s w (by omega) (by omega)
        · rw [subjectsOf_eq_nil_of_not_mem hmem]
          rfl

/-- With no adjacency entry both sides reduce to the same base case; this
separate equation keeps `visit_fuel_irrel` readable. -/
lemma goList_nil (g : Nat → List Nat → List Nat × List Nat) (v : List Nat) :
    goList g [] v = ([], v) :=
  rfl

/-! ## Soundness: everything listed is reachable -/

/-- Prepending a direct edge to a reachability chain. -/
lemma reach_prepend {ds : List (Nat × List Nat)} {x y z : Nat}
    (hxy : y ∈ subjectsOf ds x) (hyz : Reach ds y z) : Reach ds x z := by
  induction hyz with
  | base h => exact Reach.tail (Reach.base hxy) h
  | tail _ hb ih => exact Reach.tail ih hb

/-- Composing reachability chains. -/
lemma reach_trans {ds : List (Nat × List Nat)} {x y z : Nat}
    (hxy : Reach ds x y) (hyz : Reach ds y z) : Reach ds x z := by
  induction hyz with
  | base h => exact Reach.tail hxy h
  | tail _ hb ih => exact Reach.tail ih hb

/-- Loop-level soundness: every element the loop appends is a direct subject
of a loop country or reachable from one, and every newly visited country is
one of the loop countries or reachable from one. -/
lemma goList_sound (ds : List (Nat × List Nat))
    (g : Nat → List Nat → List Nat × List Nat)
    (hg : ∀ s w, (∀ y ∈ (g s w).1, Reach ds s y) ∧
      (∀ x ∈ (g s w).2, x ∈ w ∨ x = s ∨ Reach ds s x)) :
    ∀ (L v : List Nat),
      (∀ y ∈ (goList g L v).1, ∃ s ∈ L, y = s ∨ Reach ds s y) ∧
      (∀ x ∈ (goList g L v).2, x ∈ v ∨ ∃ s ∈ L, x = s ∨ Reach ds s x) := by
  intro L
  induction L with
  | nil =>
    intro v
    constructor
    · intro y hy
      simp [goList] at hy
    · intro x hx
      exact Or.inl hx
  | cons s rest ih =>
    intro v
    simp only [goList]
    constructor
    · intro y hy
      simp only [List.mem_cons, List.mem_append] at hy
      rcases hy with rfl | hy | hy
      · exact ⟨y, List.mem_cons_self _ _, Or.inl rfl⟩
      · exact ⟨s, List.mem_cons_self _ _, Or.inr ((hg s v).1 y hy)⟩
      · obtain ⟨t, ht, hory⟩ := (ih (g s v).2).1 y hy
        exact ⟨t, List.mem_cons_of_mem _ ht, hory⟩
    · intro x hx
      rcases (ih (g s v).2).2 x hx with hx2 | ⟨t, ht, horx⟩
      · rcases (hg s v).2 x hx2 with h | h | h
        · exact Or.inl h
        · exact Or.inr ⟨s, List.mem_cons_self _ _, Or.inl h⟩
        · exact Or.inr ⟨s, List.mem_cons_self _ _, Or.inr h⟩
      · exact Or.inr ⟨t, List.mem_cons_of_mem _ ht, horx⟩

/-- Soundness of the traversal: every listed country is reachable from the
start by at least one subject step, and every newly visited country is the
start or reachable from it. -/
lemma visit_sound (ds : List (Nat × List Nat)) :
    ∀ (f c : Nat) (v : List Nat),
      (∀ y ∈ (visit ds f c v).1, Reach ds c y) ∧
      (∀ x ∈ (visit ds f c v).2, x ∈ v ∨ x = c ∨ Reach ds c x) := by
  intro f
  induction f with
  | zero =>
    intro c v
    constructor
    · intro y hy
      simp [visit] at hy
    · intro x hx
      exact Or.inl hx
  | succ f ih =>
    intro c v
    simp only [visit]
    by_cases hc : c ∈ v
    · rw [if_pos hc]
      constructor
      · intro y hy
        simp at hy
      · intro x hx
        exact Or.inl hx
    · rw [if_neg hc]
      have hmain := goList_sound ds (fun s w => visit ds f s w)
        (fun s w => ih s w) (subjectsOf ds c) (c :: v)
      constructor
      · intro y hy
        obtain ⟨s, hs, hor⟩ := hmain.1 y hy
        rcases hor with rfl | hr
        · exact Reach.base hs
        · exact reach_prepend hs hr
      · intro x hx
        rcases hmain.2 x hx with hx2 | ⟨s, hs, hor⟩
        · rcases List.mem_cons.mp hx2 with rfl | h
          · exact Or.inr (Or.inl rfl)
          · exact Or.inl h
        · rcases hor with rfl | hr
          · exact Or.inr (Or.inr (Reach.base hs))
          · exact Or.inr (Or.inr (reach_prepend hs hr))

/-! ## Completeness: subjects of visited countries are listed and the
traversal visits everything reachable -/

/-- Loop-level: each loop country is appended, and the direct subjects of any
country the loop newly visits end up in the loop's list. -/
lemma goList_subjects_in_list (ds : List (Nat × List Nat))
    (g : Nat → List Nat → List Nat × List Nat)
    (hg : ∀ s w, ∀ x ∈ (g s w).2, x ∉ w →
      ∀ y ∈ subjectsOf ds x, y ∈ (g s w).1) :
    ∀ (L v : List Nat),
      (∀ s ∈ L, s ∈ (goList g L v).1) ∧
      (∀ x ∈ (goList g L v).2, x ∉ v →
        ∀ y ∈ subjectsOf ds x, y ∈ (goList g L v).1) := by
  intro L
  induction L with
  | nil =>
    intro v
    constructor
    · intro s hs
      simp at hs
    · intro x hx hxv
      exact (hxv hx).elim
  | cons s rest ih =>
    intro v
    simp only [goList]
    constructor
    · intro t ht
      rcases List.mem_cons.mp ht with rfl | ht2
      · exact List.mem_cons_self _ _
      · exact List.mem_cons_of_mem _
          (List.mem_append_right _ ((ih (g s v).2).1 t ht2))
    · intro x hx hxv y hy
      by_cases hxp : x ∈ (g s v).2
      · exact List.mem_cons_of_mem _
          (List.mem_append_left _ (hg s v x hxp hxv y hy))
      · exact List.mem_cons_of_mem _
          (List.mem_append_right _ ((ih (g s v).2).2 x hx hxp y hy))

/-- The direct subjects of every country the traversal newly visits appear in
the returned list. -/
lemma visit_subjects_in_list (ds : List (Nat × List Nat)) :
    ∀ (f c : Nat) (v : List Nat), ∀ x ∈ (visit ds f c v).2, x ∉ v →
      ∀ y ∈ subjectsOf ds x, y ∈ (visit ds f c v).1 := by
  intro f
  induction f with
  | zero =>
    intro c v x hx hxv
    exact (hxv hx).elim
  | succ f ih =>
    intro c v x hx hxv y hy
    simp only [visit] at hx ⊢
    by_cases hc : c ∈ v
    · rw [if_pos hc] at hx ⊢
      exact (hxv hx).elim
    · rw [if_neg hc] at hx ⊢
      have hmain := goList_subjects_in_list ds (fun s w => visit ds f s w)
        (fun s w => ih s w) (subjectsOf ds c) (c :: v)
      by_cases hxc : x = c
      · subst hxc
        exact hmain.1 y hy
      · have hxcv : x ∉ c :: v := by
          intro hmm
          rcases List.mem_cons.mp hmm with h | h
          · exact hxc h
          · exact hxv h
        exact hmain.2 x hx hxcv y hy

/-- Loop-level closure: with enough fuel each loop country and each subject of
a newly visited country is visited. -/
lemma goList_closed (ds : List (Nat × List Nat))
    (g : Nat → List Nat → List Nat × List Nat) (f : Nat)
    (hm : ∀ s w, w ⊆ (g s w).2)
    (hins : ∀ s w, unvisited ds w < f → s ∈ (g s w).2)
    (hcl : ∀ s w, unvisited ds w < f → ∀ x ∈ (g s w).2, x ∉ w →
      ∀ y ∈ subjectsOf ds x, y ∈ (g s w).2) :
    ∀ (L v : List Nat), unvisited ds v < f →
      (∀ s ∈ L, s ∈ (goList g L v).2) ∧
      (∀ x ∈ (goList g L v).2, x ∉ v →
        ∀ y ∈ subjectsOf ds x, y ∈ (goList g L v).2) := by
  intro L
  induction L with
  | nil =>
    intro v _
    constructor
    · intro s hs
      simp at hs
    · intro x hx hxv
      exact (hxv hx).elim
  | cons s rest ih =>
    intro v hv
    have hv2 : unvisited ds (g s v).2 < f :=
      lt_of_le_of_lt (unvisited_le_of_subset (hm s v)) hv
    simp only [goList]
    have hrest := ih (g s v).2 hv2
    constructor
    · intro t ht
      rcases List.mem_cons.mp ht with rfl | ht2
      · exact goList_snd_mono g hm rest _ (hins t v hv)
      · exact hrest.1 t ht2
    · intro x hx hxv y hy
      by_cases hxp : x ∈ (g s v).2
      · exact goList_snd_mono g hm rest (g s v).2 (hcl s v hv x hxp hxv y hy)
      · exact hrest.2 x hx hxp y hy

/-- With enough fuel the visited set is closed under taking direct subjects
of newly visited countries. -/
lemma visit_closed (ds : List (Nat × List Nat)) :
    ∀ (f c : Nat) (v : List Nat), unvisited ds v < f →
      ∀ x ∈ (visit ds f c v).2, x ∉ v →
      ∀ y ∈ subjectsOf ds x, y ∈ (visit ds f c v).2 := by
  intro f
  induction f with
  | zero =>
    intro c v hv
    exact absurd hv (by simp)
  | succ f ih =>
    intro c v hv x hx hxv y hy
    simp only [visit] at hx ⊢
    by_cases hc : c ∈ v
    · rw [if_pos hc] at hx ⊢
      exact (hxv hx).elim
    · rw [if_neg hc] at hx ⊢
      by_cases hmem : c ∈ allNodes ds
      · have hd := unvisited_lt hmem hc
        have hmain := goList_closed ds (fun s w => visit ds f s w) f
          (fun s w => visit_snd_mono ds f s w)
          (fun s w hw => visit_mem_snd ds f s w (by omega))
          (fun s w hw => ih s w hw)
          (subjectsOf ds c) (c :: v) (by omega)
        by_cases hxc : x = c
        · subst hxc
          exact hmain.1 y hy
        · have hxcv : x ∉ c :: v := by
            intro hmm
            rcases List.mem_cons.mp hmm with h | h
            · exact hxc h
            · exact hxv h
          exact hmain.2 x hx hxcv y hy
      · rw [subjectsOf_eq_nil_of_not_mem hmem] at hx ⊢
        simp only [goList_nil] at hx ⊢
        rcases List.mem_cons.mp hx with rfl | h
        · rw [subjectsOf_eq_nil_of_not_mem hmem] at hy
          simp at hy
        · exact (hxv h).elim

/-- Every country reachable from the start is visited by the full-budget
traversal. -/
lemma reach_mem_visited (ds : List (Nat × List Nat)) {c T : Nat}
    (h : Reach ds c T) : T ∈ (visit ds (subjectFuel ds) c []).2 := by
  have hfuel : unvisited ds [] < subjectFuel ds := unvisited_lt_subjectFuel ds []
  induction h with
  | base hb =>
    have hcv : c ∈ (visit ds (subjectFuel ds) c []).2 :=
      visit_mem_snd ds _ c [] (by simp [subjectFuel])
    exact visit_closed ds (subjectFuel ds) c [] hfuel c hcv (by simp) _ hb
  | tail _ hb ih =>
    exact visit_closed ds (subjectFuel ds) c [] hfuel _ ih (by simp) _ hb

/-- The characterization of the resolver's flattened list: membership is
exactly reachability by one or more subject steps. -/
lemma mem_getAllSubjects_iff (ds : List (Nat × List Nat)) (c T : Nat) :
    T ∈ getAllSubjects ds c ↔ Reach ds c T := by
  constructor
  · intro h
    exact (visit_sound ds (subjectFuel ds) c []).1 T h
  · intro h
    have hdec : ∃ x, (x = c ∨ Reach ds c x) ∧ T ∈ subjectsOf ds x := by
      cases h with
      | base hb => exact ⟨c, Or.inl rfl, hb⟩
      | tail hr hb => exact ⟨_, Or.inr hr, hb⟩
    obtain ⟨x, hor, hb⟩ := hdec
    have hxv : x ∈ (visit ds (subjectFuel ds) c []).2 := by
      rcases hor with rfl | hr
      · exact visit_mem_snd ds _ x [] (by simp [subjectFuel])
      · exact reach_mem_visited ds hr
    exact visit_subjects_in_list ds (subjectFuel ds) c [] x hxv (by simp) T hb

/-- Looking a key up in the second-pass map returns its transitive list. -/
lemma lookup_map_key {α : Type} (f : Nat → α) :
    ∀ (ds : List (Nat × List Nat)) (c : Nat) (x : α),
      List.lookup c (ds.map (fun p => (p.1, f p.1))) = some x → x = f c := by
  intro ds
  induction ds with
  | nil =>
    intro c x h
    simp [List.lookup] at h
  | cons p rest ih =>
    intro c x h
    by_cases hck : c = p.1
    · subst hck
      simp [List.lookup] at h
      exact h.symm
    · have hb : (c == p.1) = false := by simp [hck]
      simp only [List.map, List.lookup, hb] at h
      exact ih c x h

/-- A key of the adjacency map is a key of the second-pass map. -/
lemma lookup_map_key_some {α : Type} (f : Nat → α) :
    ∀ (ds : List (Nat × List Nat)) (c : Nat) (l : List Nat),
      List.lookup c ds = some l →
      List.lookup c (ds.map (fun p => (p.1, f p.1))) = some (f c) := by
  intro ds
  induction ds with
  | nil =>
    intro c l h
    simp [List.lookup] at h
  | cons p rest ih =>
    intro c l h
    by_cases hck : c = p.1
    · subst hck
      simp [List.lookup]
    · have hb : (c == p.1) = false := by simp [hck]
      simp only [List.lookup, hb] at h
      simp only [List.map, List.lookup, hb]
      exact ih c l h

/-- The resolver output pairs each overlord with its `getAllSubjects` list. -/
lemma lookup_subjectRelationships {pacts : List Pact} {c : Nat} {l : List Nat}
    (h : List.lookup c (subjectRelationships pacts) = some l) :
    l = getAllSubjects (directSubjects pacts) c := by
  exact lookup_map_key _ (directSubjects pacts) c l h

/-! ## The humans.txt loaders

Text lines are embedded as character lists so that `line.strip()` and
`line.startswith('#')` are explicit computable functions. -/

/-- The whitespace characters removed by Python's `str.strip`. -/
def isBlankChar (c : Char) : Bool :=
  c == ' ' || c == '\t' || c == '\n' || c == '\r'

/-- `line.strip()`: drop whitespace from both ends. -/
def stripLine (l : List Char) : List Char :=
  ((l.dropWhile isBlankChar).reverse.dropWhile isBlankChar).reverse

/-- `line.startswith('#')`. -/
def startsWithHash : List Char → Bool
  | [] => false
  | c :: _ => c == '#'

/-- `load_humans_list` of `gdp_report.py` (lines 14-25): keep each stripped
line that is nonempty and does not start with a hash. -/
def load_humans_list (lines : List (List Char)) : List (List Char) :=
  (lines.map stripLine).filter (fun l => !l.isEmpty && !startsWithHash l)

/-- The humans.txt loader inlined in `true_gdp_ownership.py` (lines 96-99) and
`foreign_ownership_report.generate_report` (lines 163-166): the set
comprehension keeps every stripped nonempty line, hash lines included. -/
def inlineHumans (lines : List (List Char)) : List (List Char) :=
  (lines.map stripLine).filter (fun l => !l.isEmpty)

/-! ## Claims C1, C4, C6, C10 -/

/-- C1: whenever the attribution engine turns an ownership record into an
edge, the edge's value follows the three-branch rule: positive cash reserves
scaled by levels/total_levels; otherwise positive weekly profit annualized at
52 weeks, scaled by levels/total_levels and by the fixed 10x multiplier;
otherwise a flat 50000 per owned level with the ownership share not applied.
Stated for `true_gdp_ownership.py` and for the identical computation of
`effective_gdp_report.py` / `session_comparison.py`. -/
theorem c1_edge_value_rule (bs : List (Nat × Building))
    (sts : List (Nat × StateRec)) (ow : OwnershipRec) (o t : Nat) (v : ℚ)
    (b : Building) (hb : ownedBuilding bs ow = some b)
    (hl : 0 < b.levels.getD 1)
    (he : trueGdpEdge bs sts ow = some (o, t, v) ∨
          effEdge bs sts ow = some (o, t, v)) :
    v = (if 0 < b.cash_reserves.getD 0 then
          b.cash_reserves.getD 0 *
            ((recLevels ow : ℚ) / ((b.levels.getD 1 : Int) : ℚ))
        else if 0 < b.profit_after_reserves.getD 0 then
          b.profit_after_reserves.getD 0 * 52 *
            ((recLevels ow : ℚ) / ((b.levels.getD 1 : Int) : ℚ)) * 10
        else (recLevels ow : ℚ) * 50000) := by
  have hv : v = buildingValue (recLevels ow) b := by
    rcases he with he | he
    · obtain ⟨_, b2, hb2, _, _, _, _, _, hv⟩ := trueGdpEdge_inv he
      rw [hb] at hb2
      injection hb2 with h
      rw [hv, h]
    · obtain ⟨_, b2, hb2, _, _, _, _, hv⟩ := effEdge_inv he
      rw [hb] at hb2
      injection hb2 with h
      rw [hv, h]
  rw [hv, buildingValue_eq (recLevels ow) b hl]

/-- Witness for C1 at a concrete save: a building of 4 levels with 100 cash
reserves, 2 owned levels, owner country 7, host country 5: value 50. -/
theorem c1_edge_value_rule_witness :
    ownedBuilding [(10, (⟨some 3, some 4, some 100, none⟩ : Building))]
        ⟨some ⟨some 7, none⟩, some 10, some 2⟩ =
      some ⟨some 3, some 4, some 100, none⟩ ∧
    (0 : Int) < (Building.levels ⟨some 3, some 4, some 100, none⟩).getD 1 ∧
    trueGdpEdge [(10, ⟨some 3, some 4, some 100, none⟩)] [(3, ⟨some 5⟩)]
        ⟨some ⟨some 7, none⟩, some 10, some 2⟩ = some (7, 5, 50) ∧
    (50 : ℚ) =
      (if 0 < (Building.cash_reserves ⟨some 3, some 4, some 100, none⟩).getD 0
       then
        (Building.cash_reserves ⟨some 3, some 4, some 100, none⟩).getD 0 *
          ((recLevels ⟨some ⟨some 7, none⟩, some 10, some 2⟩ : ℚ) /
            (((Building.levels ⟨some 3, some 4, some 100, none⟩).getD 1 :
              Int) : ℚ))
       else if 0 <
          (Building.profit_after_reserves
            ⟨some 3, some 4, some 100, none⟩).getD 0 then
        (Building.profit_after_reserves
            ⟨some 3, some 4, some 100, none⟩).getD 0 * 52 *
          ((recLevels ⟨some ⟨some 7, none⟩, some 10, some 2⟩ : ℚ) /
            (((Building.levels ⟨some 3, some 4, some 100, none⟩).getD 1 :
              Int) : ℚ)) * 10
       else (recLevels ⟨some ⟨some 7, none⟩, some 10, some 2⟩ : ℚ) * 50000) :=
  ⟨by decide, by decide,
    by norm_num [trueGdpEdge, ownedBuilding, locState, resolveOwner, identD,
      recLevels, buildingValue, levelShare, List.lookup],
    c1_edge_value_rule [(10, ⟨some 3, some 4, some 100, none⟩)]
      [(3, ⟨some 5⟩)] ⟨some ⟨some 7, none⟩, some 10, some 2⟩ 7 5 50
      ⟨some 3, some 4, some 100, none⟩ (by decide) (by decide)
      (Or.inl (by norm_num [trueGdpEdge, ownedBuilding, locState, resolveOwner, identD,
      recLevels, buildingValue, levelShare, List.lookup]))⟩

/-- C4: a record whose resolved owner country equals its resolved host country
yields no foreign edge: `analyze_foreign_ownership_true_gdp` produces none,
and every edge `foreign_ownership_report` produces has owner distinct from
host (the equal case only feeds the domestic total). -/
theorem c4_domestic_excluded (bs : List (Nat × Building))
    (sts : List (Nat × StateRec)) (ow : OwnershipRec) (c : Nat) :
    (hostCountry bs sts ow = some c →
      resolveOwner bs sts (identD ow) = some c →
      trueGdpEdge bs sts ow = none) ∧
    (∀ o t w, forEdge bs sts ow = some (o, t, w) → o ≠ t) := by
  constructor
  · intro hh ho
    rcases he : trueGdpEdge bs sts ow with _ | e
    · rfl
    obtain ⟨o, t, v⟩ := e
    obtain ⟨_, b, _, hh2, ho2, _, _, hne, _⟩ := trueGdpEdge_inv he
    rw [hh] at hh2
    rw [ho] at ho2
    injection hh2 with h1
    injection ho2 with h2
    exact absurd (h2.symm.trans h1) hne
  · intro o t w he
    exact (forEdge_inv he).2.2

/-- Witness for C4: a record held by country 5 in a building hosted by
country 5 produces no edge, and a concretely produced foreign edge has
distinct countries. -/
theorem c4_domestic_excluded_witness :
    hostCountry [(10, ⟨some 3, some 4, some 100, none⟩)] [(3, ⟨some 5⟩)]
        ⟨some ⟨some 5, none⟩, some 10, some 2⟩ = some 5 ∧
    resolveOwner [(10, ⟨some 3, some 4, some 100, none⟩)] [(3, ⟨some 5⟩)]
        (identD ⟨some ⟨some 5, none⟩, some 10, some 2⟩) = some 5 ∧
    trueGdpEdge [(10, ⟨some 3, some 4, some 100, none⟩)] [(3, ⟨some 5⟩)]
        ⟨some ⟨some 5, none⟩, some 10, some 2⟩ = none ∧
    forEdge [(10, ⟨some 3, some 4, some 100, none⟩)] [(3, ⟨some 5⟩)]
        ⟨some ⟨some 7, none⟩, some 10, some 2⟩ = some (7, 5, 200050) ∧
    (7 : Nat) ≠ 5 :=
  ⟨by decide, by decide,
    (c4_domestic_excluded [(10, ⟨some 3, some 4, some 100, none⟩)]
      [(3, ⟨some 5⟩)] ⟨some ⟨some 5, none⟩, some 10, some 2⟩ 5).1
      (by decide) (by decide),
    by norm_num [forEdge, identD, recLevels, forValue, levelShare, List.lookup],
    (c4_domestic_excluded [(10, ⟨some 3, some 4, some 100, none⟩)]
      [(3, ⟨some 5⟩)] ⟨some ⟨some 7, none⟩, some 10, some 2⟩ 5).2
      7 5 200050 (by norm_num [forEdge, identD, recLevels, forValue, levelShare, List.lookup])⟩

/-- C6 (amended): the ownership share never divides by zero; it is
levels/n for a present positive total n, 0 for a present nonpositive total,
and — because the code defaults a missing `levels` field to 1, not 0 — equal
to the record's own levels when the building's `levels` field is absent. -/
theorem c6_level_share_guard (lv : Int) (b : Building) :
    (∀ n : Int, b.levels = some n → 0 < n →
      levelShare lv b = (lv : ℚ) / (n : ℚ)) ∧
    (∀ n : Int, b.levels = some n → n ≤ 0 → levelShare lv b = 0) ∧
    (b.levels = none → levelShare lv b = (lv : ℚ)) := by
  refine ⟨?_, ?_, ?_⟩
  · intro n hn h
    simp [levelShare, hn, h]
  · intro n hn h
    simp [levelShare, hn, not_lt.mpr h]
  · intro hn
    simp [levelShare, hn]

/-- Counterexample for C6 as claimed: a building record with no `levels`
field gives share levels/1, not 0 — here 2 owned levels give share 2. -/
theorem c6_missing_levels_counterexample :
    Building.levels ⟨none, none, none, none⟩ = none ∧
    levelShare 2 ⟨none, none, none, none⟩ = 2 ∧
    levelShare 2 ⟨none, none, none, none⟩ ≠ 0 := by
  refine ⟨rfl, by norm_num [levelShare], by norm_num [levelShare]⟩

/-- Witness for the amended C6 at totals 4, 0 and absent. -/
theorem c6_level_share_guard_witness :
    ((0 : Int) < 4 ∧
      levelShare 2 ⟨none, some 4, none, none⟩ = (2 : ℚ) / ((4 : Int) : ℚ)) ∧
    levelShare 2 ⟨none, some 0, none, none⟩ = 0 ∧
    levelShare 2 ⟨none, none, none, none⟩ = (2 : ℚ) :=
  ⟨⟨by decide,
    (c6_level_share_guard 2 ⟨none, some 4, none, none⟩).1 4 rfl (by decide)⟩,
   (c6_level_share_guard 2 ⟨none, some 0, none, none⟩).2.1 0 rfl (by decide),
   (c6_level_share_guard 2 ⟨none, none, none, none⟩).2.2 rfl⟩

/-- C10: an id equal to 0 behaves like a missing reference: a host or owner
resolving to 0 yields no edge in either attribution pipeline, and a pact with
a 0 target adds no adjacency entry, because the code tests ids for
truthiness. -/
theorem c10_zero_ids (bs : List (Nat × Building)) (sts : List (Nat × StateRec))
    (ow : OwnershipRec) (ds : List (Nat × List Nat)) (p : Pact) :
    (hostCountry bs sts ow = some 0 →
      trueGdpEdge bs sts ow = none ∧ effEdge bs sts ow = none) ∧
    (resolveOwner bs sts (identD ow) = some 0 →
      trueGdpEdge bs sts ow = none ∧ effEdge bs sts ow = none) ∧
    ((p.first = some 0 ∨ p.second = some 0) → pactStep ds p = ds) := by
  refine ⟨?_, ?_, ?_⟩
  · intro hh
    constructor
    · rcases he : trueGdpEdge bs sts ow with _ | e
      · rfl
      obtain ⟨o, t, v⟩ := e
      obtain ⟨_, b, _, hh2, _, _, ht0, _, _⟩ := trueGdpEdge_inv he
      rw [hh] at hh2
      injection hh2 with h
      exact absurd h.symm ht0
    · rcases he : effEdge bs sts ow with _ | e
      · rfl
      obtain ⟨o, t, v⟩ := e
      obtain ⟨_, b, _, hh2, _, _, ht0, _⟩ := effEdge_inv he
      rw [hh] at hh2
      injection hh2 with h
      exact absurd h.symm ht0
  · intro ho
    constructor
    · rcases he : trueGdpEdge bs sts ow with _ | e
      · rfl
      obtain ⟨o, t, v⟩ := e
      obtain ⟨_, b, _, _, ho2, ho0, _, _, _⟩ := trueGdpEdge_inv he
      rw [ho] at ho2
      injection ho2 with h
      exact absurd h.symm ho0
    · rcases he : effEdge bs sts ow with _ | e
      · rfl
      obtain ⟨o, t, v⟩ := e
      obtain ⟨_, b, _, _, ho2, ho0, _, _⟩ := effEdge_inv he
      rw [ho] at ho2
      injection ho2 with h
      exact absurd h.symm ho0
  · intro h
    rcases h with h | h <;> simp [pactStep, truthyId, h]

/-- Witness for C10: a state owned by country 0, an identity naming country 0,
and a pact whose second target is 0. -/
theorem c10_zero_ids_witness :
    hostCountry [(10, ⟨some 3, some 4, some 100, none⟩)] [(3, ⟨some 0⟩)]
        ⟨some ⟨some 7, none⟩, some 10, some 2⟩ = some 0 ∧
    trueGdpEdge [(10, ⟨some 3, some 4, some 100, none⟩)] [(3, ⟨some 0⟩)]
        ⟨some ⟨some 7, none⟩, some 10, some 2⟩ = none ∧
    resolveOwner [(10, ⟨some 3, some 4, some 100, none⟩)] [(3, ⟨some 5⟩)]
        (identD ⟨some ⟨some 0, none⟩, some 10, some 2⟩) = some 0 ∧
    effEdge [(10, ⟨some 3, some 4, some 100, none⟩)] [(3, ⟨some 5⟩)]
        ⟨some ⟨some 0, none⟩, some 10, some 2⟩ = none ∧
    pactStep [] ⟨some "puppet", some 1, some 0⟩ = [] :=
  ⟨by decide,
    ((c10_zero_ids [(10, ⟨some 3, some 4, some 100, none⟩)] [(3, ⟨some 0⟩)]
      ⟨some ⟨some 7, none⟩, some 10, some 2⟩ []
      ⟨some "puppet", some 1, some 0⟩).1 (by decide)).1,
   by decide,
    ((c10_zero_ids [(10, ⟨some 3, some 4, some 100, none⟩)] [(3, ⟨some 5⟩)]
      ⟨some ⟨some 0, none⟩, some 10, some 2⟩ []
      ⟨some "puppet", some 1, some 0⟩).2.1 (by decide)).2,
    (c10_zero_ids [(10, ⟨some 3, some 4, some 100, none⟩)] [(3, ⟨some 5⟩)]
      ⟨some ⟨some 0, none⟩, some 10, some 2⟩ []
      ⟨some "puppet", some 1, some 0⟩).2.2 (Or.inr rfl)⟩

/-! ## Claims C8 and C9 -/

/-- With no building table every record fails its building lookup. -/
lemma trueGdpEdge_nil_buildings (sts : List (Nat × StateRec))
    (ow : OwnershipRec) : trueGdpEdge [] sts ow = none := by
  simp [trueGdpEdge, ownedBuilding]

/-- With no state table every record fails its state lookup. -/
lemma trueGdpEdge_nil_states (bs : List (Nat × Building))
    (ow : OwnershipRec) : trueGdpEdge bs [] ow = none := by
  rcases hb : ownedBuilding bs ow with _ | b <;>
    simp [trueGdpEdge, locState, hb]

/-- C8 (amended): an absent top-level section is read as an empty table and
the computations proceed without failing; the aggregates that read the absent
table are empty — no ownership, building or state table means no edges and
zero totals, no pacts table means no subject relationships.  (An absent
country table does not empty the edge list, which never reads it; see the
counterexample.) -/
theorem c8_absent_section_empty (s : SaveData) :
    (s.ownerships = none →
      trueGdpEdges s = [] ∧ ∀ o t, investmentTotal s o t = 0) ∧
    (s.buildings = none → trueGdpEdges s = []) ∧
    (s.states = none → trueGdpEdges s = []) ∧
    (s.pacts = none → subjectRelationshipsOf s = []) := by
  refine ⟨?_, ?_, ?_, ?_⟩
  · intro h
    have he : trueGdpEdges s = [] := by simp [trueGdpEdges, trueGdpRecords, h]
    exact ⟨he, fun o t => by simp [investmentTotal, he]⟩
  · intro h
    have hb : buildingsD s = [] := by simp [buildingsD, h]
    simp only [trueGdpEdges, hb]
    exact List.filterMap_eq_nil_iff.mpr (fun ow _ => trueGdpEdge_nil_buildings _ ow)
  · intro h
    have hs : statesD s = [] := by simp [statesD, h]
    simp only [trueGdpEdges, hs]
    exact List.filterMap_eq_nil_iff.mpr (fun ow _ => trueGdpEdge_nil_states _ ow)
  · intro h
    simp [subjectRelationshipsOf, h, subjectRelationships, directSubjects]

/-- Counterexample for C8 as claimed: a document whose country table is
entirely absent still yields a foreign edge, so "no edges, no totals" does
not hold for every absent section. -/
theorem c8_absent_countries_counterexample :
    SaveData.countries ⟨none, some [(10, ⟨some 3, some 4, some 100, none⟩)],
        some [(3, ⟨some 5⟩)], some [(1, ⟨some ⟨some 7, none⟩, some 10, some 2⟩)],
        none⟩ = none ∧
    trueGdpEdges ⟨none, some [(10, ⟨some 3, some 4, some 100, none⟩)],
        some [(3, ⟨some 5⟩)], some [(1, ⟨some ⟨some 7, none⟩, some 10, some 2⟩)],
        none⟩ = [(7, 5, 50)] ∧
    trueGdpEdges ⟨none, some [(10, ⟨some 3, some 4, some 100, none⟩)],
        some [(3, ⟨some 5⟩)], some [(1, ⟨some ⟨some 7, none⟩, some 10, some 2⟩)],
        none⟩ ≠ [] := by
  have he : trueGdpEdges ⟨none, some [(10, ⟨some 3, some 4, some 100, none⟩)],
      some [(3, ⟨some 5⟩)], some [(1, ⟨some ⟨some 7, none⟩, some 10, some 2⟩)],
      none⟩ = [(7, 5, 50)] := by
    norm_num [trueGdpEdges, trueGdpRecords, buildingsD, statesD, trueGdpEdge,
      ownedBuilding, locState, resolveOwner, identD, recLevels, buildingValue,
      levelShare, List.lookup, List.filterMap_cons]
  exact ⟨rfl, he, by rw [he]; simp⟩

/-- Witness for the amended C8 at a concrete document with every section
absent. -/
theorem c8_absent_section_empty_witness :
    SaveData.ownerships ⟨none, none, none, none, none⟩ = none ∧
    trueGdpEdges ⟨none, none, none, none, none⟩ = [] ∧
    investmentTotal ⟨none, none, none, none, none⟩ 7 5 = 0 ∧
    subjectRelationshipsOf ⟨none, none, none, none, none⟩ = [] :=
  ⟨rfl,
   ((c8_absent_section_empty ⟨none, none, none, none, none⟩).1 rfl).1,
   ((c8_absent_section_empty ⟨none, none, none, none, none⟩).1 rfl).2 7 5,
   (c8_absent_section_empty ⟨none, none, none, none, none⟩).2.2.2 rfl⟩

/-- C9 (amended): `gdp_report.load_humans_list` keeps exactly the stripped
nonblank lines that do not start with a hash, but the loaders inlined in
`true_gdp_ownership.py` and `foreign_ownership_report.py` keep every stripped
nonblank line, hash comment lines included. -/
theorem c9_humans_filter (lines : List (List Char)) (l : List Char) :
    (l ∈ load_humans_list lines ↔
      l ∈ lines.map stripLine ∧ ¬l.isEmpty = true ∧ ¬startsWithHash l = true) ∧
    (l ∈ inlineHumans lines ↔ l ∈ lines.map stripLine ∧ ¬l.isEmpty = true) := by
  constructor <;>
    simp [load_humans_list, inlineHumans, List.mem_filter, and_assoc]

/-- Counterexample for C9 as claimed: the set-comprehension loader keeps the
comment line "#FRA", so hash lines are not excluded in every report. -/
theorem c9_comment_line_kept_counterexample :
    startsWithHash ['#', 'F', 'R', 'A'] = true ∧
    ['#', 'F', 'R', 'A'] ∈
      inlineHumans [['#', 'F', 'R', 'A'], ['U', 'S', 'A']] := by
  constructor <;> decide

/-! ## Claims C2, C3, C5, C7 -/

/-- C2 (amended): a country appears in its own transitive subject list only
when the pact data contains a chain of subject pacts leading from it back to
itself; every listed subject is reachable by at least one subject step, so in
cycle-free pact data no country is its own subject. -/
theorem c2_self_subject_needs_cycle (pacts : List Pact) (O : Nat)
    (l : List Nat)
    (h : List.lookup O (subjectRelationships pacts) = some l)
    (hm : O ∈ l) : Reach (directSubjects pacts) O O := by
  rw [lookup_subjectRelationships h] at hm
  exact (mem_getAllSubjects_iff _ O O).mp hm

/-- Counterexample for C2 as claimed: with puppet pacts 1→2 and 2→1 the
resolver's list for country 1 is [2, 1] — country 1 appears in its own
transitive subject list. -/
theorem c2_self_subject_counterexample :
    List.lookup 1 (subjectRelationships
      [⟨some "puppet", some 1, some 2⟩, ⟨some "puppet", some 2, some 1⟩]) =
      some [2, 1] ∧
    1 ∈ ((List.lookup 1 (subjectRelationships
      [⟨some "puppet", some 1, some 2⟩,
       ⟨some "puppet", some 2, some 1⟩])).getD []) := by
  constructor <;> decide

/-- Witness for the amended C2: on the cyclic input the theorem recovers the
cycle from 1 back to 1. -/
theorem c2_self_subject_needs_cycle_witness :
    List.lookup 1 (subjectRelationships
      [⟨some "puppet", some 1, some 2⟩, ⟨some "puppet", some 2, some 1⟩]) =
      some [2, 1] ∧
    (1 : Nat) ∈ [2, 1] ∧
    Reach (directSubjects
      [⟨some "puppet", some 1, some 2⟩, ⟨some "puppet", some 2, some 1⟩]) 1 1 :=
  ⟨by decide, by decide,
    c2_self_subject_needs_cycle
      [⟨some "puppet", some 1, some 2⟩, ⟨some "puppet", some 2, some 1⟩]
      1 [2, 1] (by decide) (by decide)⟩

/-- C3: transitivity of the resolver — if S is a direct subject of O and T is
a direct or indirect subject of S, then T appears in the transitive subject
list computed for O. -/
theorem c3_transitive_subjects (pacts : List Pact) (O S T : Nat)
    (hS : S ∈ subjectsOf (directSubjects pacts) O)
    (hT : Reach (directSubjects pacts) S T) :
    ∃ l, List.lookup O (subjectRelationships pacts) = some l ∧ T ∈ l := by
  have hOT : Reach (directSubjects pacts) O T := reach_prepend hS hT
  have hmem : T ∈ getAllSubjects (directSubjects pacts) O :=
    (mem_getAllSubjects_iff _ O T).mpr hOT
  have hkey : ∃ dl, List.lookup O (directSubjects pacts) = some dl := by
    unfold subjectsOf at hS
    rcases hl : List.lookup O (directSubjects pacts) with _ | dl
    · rw [hl] at hS
      simp at hS
    · exact ⟨dl, rfl⟩
  obtain ⟨dl, hdl⟩ := hkey
  exact ⟨getAllSubjects (directSubjects pacts) O,
    lookup_map_key_some _ (directSubjects pacts) O dl hdl, hmem⟩

/-- Witness for C3 on the chain 1→2→3: 3 is listed among 1's subjects. -/
theorem c3_transitive_subjects_witness :
    2 ∈ subjectsOf (directSubjects
      [⟨some "puppet", some 1, some 2⟩, ⟨some "puppet", some 2, some 3⟩]) 1 ∧
    3 ∈ subjectsOf (directSubjects
      [⟨some "puppet", some 1, some 2⟩, ⟨some "puppet", some 2, some 3⟩]) 2 ∧
    ∃ l, List.lookup 1 (subjectRelationships
      [⟨some "puppet", some 1, some 2⟩, ⟨some "puppet", some 2, some 3⟩]) =
        some l ∧ 3 ∈ l :=
  ⟨by decide, by decide,
    c3_transitive_subjects
      [⟨some "puppet", some 1, some 2⟩, ⟨some "puppet", some 2, some 3⟩]
      1 2 3 (by decide) (Reach.base (by decide))⟩

/-- C5: the transitive-closure traversal terminates on every finite input,
cyclic ones included: the result is stable once the depth budget exceeds the
unvisited-node count (so the Python recursion, whose depth the budget models,
bottoms out), and an already-visited country truncates further expansion
immediately, returning the empty extension. -/
theorem c5_closure_terminates (pacts : List Pact) (c : Nat) (v : List Nat)
    (f : Nat) :
    (unvisited (directSubjects pacts) v < f →
      visit (directSubjects pacts) f c v =
        visit (directSubjects pacts) (subjectFuel (directSubjects pacts)) c v) ∧
    (c ∈ v → visit (directSubjects pacts) f c v = ([], v)) := by
  constructor
  · intro hf
    exact visit_fuel_irrel _ f _ c v hf (unvisited_lt_subjectFuel _ v)
  · intro hc
    cases f with
    | zero => rfl
    | succ f => simp [visit, hc]

/-- Witness for C5 on the cyclic input 1→2, 2→1. -/
theorem c5_closure_terminates_witness :
    visit (directSubjects
      [⟨some "puppet", some 1, some 2⟩, ⟨some "puppet", some 2, some 1⟩])
      (subjectFuel (directSubjects
        [⟨some "puppet", some 1, some 2⟩, ⟨some "puppet", some 2, some 1⟩]) + 1)
      1 [] =
    visit (directSubjects
      [⟨some "puppet", some 1, some 2⟩, ⟨some "puppet", some 2, some 1⟩])
      (subjectFuel (directSubjects
        [⟨some "puppet", some 1, some 2⟩, ⟨some "puppet", some 2, some 1⟩]))
      1 [] ∧
    (1 : Nat) ∈ [1] ∧
    visit (directSubjects
      [⟨some "puppet", some 1, some 2⟩, ⟨some "puppet", some 2, some 1⟩])
      5 1 [1] = ([], [1]) :=
  ⟨(c5_closure_terminates
      [⟨some "puppet", some 1, some 2⟩, ⟨some "puppet", some 2, some 1⟩]
      1 [] (subjectFuel (directSubjects
        [⟨some "puppet", some 1, some 2⟩, ⟨some "puppet", some 2, some 1⟩]) + 1)).1
      ((unvisited_lt_subjectFuel _ _).trans (Nat.lt_succ_self _)),
   by decide,
   (c5_closure_terminates
      [⟨some "puppet", some 1, some 2⟩, ⟨some "puppet", some 2, some 1⟩]
      1 [1] 5).2 (by decide)⟩

/-- C7 (amended): the resolver's flattened list for an overlord contains
exactly the countries reachable by one or more subject steps — every
reachable subject is listed — but a subject may appear more than once when it
is reachable through several pacts or chains; the list is not deduplicated. -/
theorem c7_list_members_reachable (pacts : List Pact) (O : Nat)
    (l : List Nat)
    (h : List.lookup O (subjectRelationships pacts) = some l) (y : Nat) :
    y ∈ l ↔ Reach (directSubjects pacts) O y := by
  rw [lookup_subjectRelationships h]
  exact mem_getAllSubjects_iff _ O y

/-- Counterexample for C7 as claimed: two identical puppet pacts 1→2 make the
resolver list subject 2 twice for overlord 1. -/
theorem c7_duplicate_counterexample :
    List.lookup 1 (subjectRelationships
      [⟨some "puppet", some 1, some 2⟩, ⟨some "puppet", some 1, some 2⟩]) =
      some [2, 2] ∧
    List.count 2 ((List.lookup 1 (subjectRelationships
      [⟨some "puppet", some 1, some 2⟩,
       ⟨some "puppet", some 1, some 2⟩])).getD []) = 2 := by
  constructor <;> decide

/-- Witness for the amended C7 at a single pact 1→2. -/
theorem c7_list_members_reachable_witness :
    List.lookup 1 (subjectRelationships [⟨some "puppet", some 1, some 2⟩]) =
      some [2] ∧
    ((2 : Nat) ∈ [2] ↔
      Reach (directSubjects [⟨some "puppet", some 1, some 2⟩]) 1 2) :=
  ⟨by decide,
    c7_list_members_reachable [⟨some "puppet", some 1, some 2⟩] 1 [2]
      (by decide) 2⟩

end V3Sat
